import Mathlib

/-!
Shallow embedding of the lyrae-client core (fixed-point numeric type,
instruction-layout decoding, margin/health engine, PnL-settlement matching)
together with proofs about the claims of the specification.

Conventions of the embedding:

* The fixed-point type `I80F48` stores its state in a bn.js `BN`, an
  arbitrary-precision sign-magnitude integer.  We embed the raw integer as
  `ℤ`.  bn.js semantics used by the source:
  - `add`/`sub`/`mul` are exact integer operations;
  - `iushrn k` shifts the *magnitude* right by `k` bits keeping the sign,
    i.e. it is truncated division (toward zero) by `2^k` = `Int.tdiv _ (2^k)`;
  - `ushln k` shifts the magnitude left, i.e. exact multiplication by `2^k`;
  - `div` is truncated (toward zero) division = `Int.tdiv`.
* Byte buffers are `List ℕ`, little endian, one byte per entry.
* JS arrays of the decoded state entities are embedded as functions `ℕ → _`
  (every decoded entity has its fixed-length arrays fully populated) or as
  `List _` where the source builds the array itself.
* Fallible operations return `Except String _` or `Option _`.
-/

set_option maxRecDepth 8000

namespace Lyrae

/-! ### Fixed-point numeric type (src/utils/fixednum.ts) -/

/-- `I80F48.FRACTIONS`. -/
def FRACTIONS : ℕ := 48

/-- `I80F48.MULTIPLIER_BN = 2^48`. -/
def MULTIPLIER : ℤ := 2 ^ FRACTIONS

/-- `I80F48.MAX_BN = 2^128 / 2 - 1`, computed exactly as the source builds it. -/
def MAX_BN : ℤ := 2 ^ 128 / 2 - 1

/-- `I80F48.MIN_BN = -(2^128 / 2)`, computed exactly as the source builds it. -/
def MIN_BN : ℤ := -(2 ^ 128 / 2)

/-- The `I80F48` constructor: throws `Number out of range` when
`data.lt(MIN_BN) || data.gt(MAX_BN)`, otherwise stores `data`. -/
def i80New (data : ℤ) : Except String ℤ :=
  if data < MIN_BN ∨ MAX_BN < data then .error "Number out of range" else .ok data

/-- `I80F48.mul`: `this.data.mul(x.data).iushrn(48)`.  bn.js `iushrn` shifts
the sign-magnitude *magnitude*, so on a negative product it truncates toward
zero (`Int.tdiv`), not toward negative infinity. -/
def i80Mul (x y : ℤ) : ℤ := Int.tdiv (x * y) MULTIPLIER

/-- `I80F48.div`: `this.data.ushln(48).div(x.data)`; bn.js `div` truncates
toward zero. -/
def i80Div (x y : ℤ) : ℤ := Int.tdiv (x * MULTIPLIER) y

/-- `ZERO_I80F48` raw value. -/
def ZERO : ℤ := 0

/-- `ONE_I80F48` raw value: `I80F48.fromString('1')` = `1 * 2^48`. -/
def ONE : ℤ := MULTIPLIER

/-- `NEG_ONE_I80F48` raw value: `-1 * 2^48`. -/
def NEG_ONE : ℤ := -MULTIPLIER

/-- `I80F48.fromNumber(100)` raw value (integral input, exact). -/
def HUNDRED : ℤ := 100 * MULTIPLIER

/-- `I80F48.neg`: `this.mul(NEG_ONE_I80F48)`. -/
def i80Neg (x : ℤ) : ℤ := i80Mul x NEG_ONE

/-- `I80F48.abs`: `isNeg` is `data < 0`; negative values go through `neg`. -/
def i80Abs (x : ℤ) : ℤ := if x < 0 then i80Neg x else x

/-- `I80F48.fromU64` / `I80F48.fromI64`: `x.ushln(48)`, an exact magnitude
shift, i.e. multiplication by `2^48`. -/
def i80FromI64 (x : ℤ) : ℤ := x * MULTIPLIER

theorem i80Neg_eq (x : ℤ) : i80Neg x = -x := by
  have h : x * NEG_ONE = (-x) * MULTIPLIER := by simp only [NEG_ONE]; ring
  have hM : MULTIPLIER ≠ 0 := by norm_num [MULTIPLIER, FRACTIONS]
  simp only [i80Neg, i80Mul, h]
  exact Int.mul_tdiv_cancel _ hM

theorem i80Abs_eq (x : ℤ) : i80Abs x = |x| := by
  by_cases h : x < 0
  · simp [i80Abs, h, i80Neg_eq, abs_of_neg h]
  · simp [i80Abs, h, abs_of_nonneg (not_lt.mp h)]

/-! ### Little-endian 16-byte encoding (`I80F48.toArray` / `I80F48.fromArray`) -/

/-- Little-endian value of a byte list (as `BN(src, 'le')` reads it). -/
def leVal (l : List ℕ) : ℕ := l.foldr (fun b acc => b + 256 * acc) 0

/-- Little-endian encoding of a natural number into `n` bytes
(as `BN.toArray('le', n)` writes it for values that fit). -/
def natToLe : ℕ → ℕ → List ℕ
  | 0, _ => []
  | n + 1, v => v % 256 :: natToLe n (v / 256)

/-- `BN.toTwos(128)`: the 128-bit two's-complement image of an in-range
value, i.e. the value modulo `2^128` (nonnegative representative). -/
def i80ToTwos (x : ℤ) : ℕ := (x % (2 ^ 128 : ℤ)).toNat

/-- `BN.fromTwos(128)`: reinterpret a 128-bit unsigned value as a
two's-complement signed value. -/
def i80FromTwos (v : ℕ) : ℤ := if 2 ^ 127 ≤ v then (v : ℤ) - 2 ^ 128 else v

/-- `I80F48.toArray`: `this.data.toTwos(128).toArray('le', 16)`. -/
def i80ToArray (x : ℤ) : List ℕ := natToLe 16 (i80ToTwos x)

/-- `I80F48.fromArray`: rejects inputs whose length is not 16, otherwise
`new I80F48(new BN(src, 'le').fromTwos(128))` (the constructor performs the
range check). -/
def i80FromArray (src : List ℕ) : Except String ℤ :=
  if src.length = 16 then i80New (i80FromTwos (leVal src))
  else .error "Uint8Array must be of length 16"

theorem natToLe_length (n v : ℕ) : (natToLe n v).length = n := by
  induction n generalizing v with
  | zero => rfl
  | succ n ih => simp [natToLe, ih]

theorem leVal_natToLe (n v : ℕ) (h : v < 256 ^ n) : leVal (natToLe n v) = v := by
  induction n generalizing v with
  | zero => simp at h; simp [natToLe, leVal, h]
  | succ n ih =>
      have hdiv : v / 256 < 256 ^ n := by
        rw [Nat.div_lt_iff_lt_mul (by norm_num)]
        calc v < 256 ^ (n + 1) := h
        _ = 256 ^ n * 256 := by ring
      have := ih (v / 256) hdiv
      simp only [natToLe, leVal, List.foldr] at this ⊢
      rw [this]
      omega

/-- C7: construction of a fixed-point value succeeds exactly on the interval
`[-2^127, 2^127 - 1]` (one half of the 128-bit two's-complement space in each
direction) and fails with the range error for every integer outside it,
immediately at construction. -/
theorem construction_range_exact (d : ℤ) :
    (i80New d = Except.ok d ↔ -(2 ^ 127) ≤ d ∧ d ≤ 2 ^ 127 - 1) ∧
    (d < -(2 ^ 127) ∨ 2 ^ 127 - 1 < d →
      i80New d = Except.error "Number out of range") := by
  have hmin : MIN_BN = -(2 ^ 127) := by norm_num [MIN_BN]
  have hmax : MAX_BN = 2 ^ 127 - 1 := by norm_num [MAX_BN]
  simp only [i80New, hmin, hmax]
  split_ifs with h
  · refine ⟨⟨fun hco => absurd hco (by simp), fun hr => absurd hr (by omega)⟩, ?_⟩
    intro _; rfl
  · push_neg at h
    refine ⟨⟨fun _ => by omega, fun _ => rfl⟩, ?_⟩
    intro hd; omega

/-- Witness for `construction_range_exact` at the out-of-range input `2^127`
and the in-range input `2^127 - 1`. -/
theorem construction_range_exact_witness :
    i80New (2 ^ 127) = Except.error "Number out of range" ∧
    i80New (2 ^ 127 - 1) = Except.ok (2 ^ 127 - 1) :=
  ⟨(construction_range_exact (2 ^ 127)).2 (by norm_num),
   (construction_range_exact (2 ^ 127 - 1)).1.mpr (by norm_num)⟩

/-- C6: for every representable fixed-point value, encoding to the 16-byte
little-endian two's-complement representation and decoding back returns the
value with a bit-for-bit identical raw representation. -/
theorem fromArray_toArray_roundTrip (x : ℤ)
    (h1 : -(2 ^ 127) ≤ x) (h2 : x ≤ 2 ^ 127 - 1) :
    i80FromArray (i80ToArray x) = Except.ok x := by
  have h256 : (256 : ℕ) ^ 16 = 2 ^ 128 := by norm_num
  have hv : i80ToTwos x < 256 ^ 16 := by
    have hlt : x % (2 ^ 128 : ℤ) < 2 ^ 128 := Int.emod_lt_of_pos x (by norm_num)
    have h0 : (0 : ℤ) ≤ x % (2 ^ 128 : ℤ) :=
      Int.emod_nonneg x (by norm_num)
    simp only [i80ToTwos, h256]
    omega
  unfold i80FromArray i80ToArray
  rw [natToLe_length, if_pos rfl, leVal_natToLe 16 _ hv]
  have hmod : x % (2 ^ 128 : ℤ) = if 0 ≤ x then x else x + 2 ^ 128 := by
    split_ifs with hx
    · exact Int.emod_eq_of_lt hx (by omega)
    · have hadd : (x + 2 ^ 128) % (2 ^ 128 : ℤ) = x % 2 ^ 128 := by
        simp
      rw [← hadd]
      exact Int.emod_eq_of_lt (by omega) (by omega)
  unfold i80FromTwos i80ToTwos i80New
  rw [hmod]
  have hminmax : MIN_BN = -(2 ^ 127) ∧ MAX_BN = 2 ^ 127 - 1 := by
    norm_num [MIN_BN, MAX_BN]
  obtain ⟨hmin, hmax⟩ := hminmax
  rw [hmin, hmax]
  split_ifs <;> simp_all <;> omega

/-- Witness for `fromArray_toArray_roundTrip` at `x = -1` (a negative value)
and at the extreme `x = -(2^127)`. -/
theorem fromArray_toArray_roundTrip_witness :
    i80FromArray (i80ToArray (-1)) = Except.ok (-1) ∧
    i80FromArray (i80ToArray (-(2 ^ 127))) = Except.ok (-(2 ^ 127)) :=
  ⟨fromArray_toArray_roundTrip (-1) (by norm_num) (by norm_num),
   fromArray_toArray_roundTrip (-(2 ^ 127)) (by norm_num) (by norm_num)⟩

/-- C1 (failing input): the raw inputs `-1` and `1` are both representable,
the exact double-width product `-1` arithmetic-shifted right by 48 bits
(truncation toward negative infinity, `Int.fdiv`) is `-1`, yet `I80F48.mul`
returns `0` because bn.js `iushrn` shifts the sign-magnitude representation's
magnitude and therefore truncates toward zero. -/
theorem mul_truncates_toward_zero_on_negative :
    (i80New (-1)).isOk = true ∧ (i80New 1).isOk = true ∧
    (i80New (Int.fdiv ((-1) * 1) (2 ^ FRACTIONS))).isOk = true ∧
    i80Mul (-1) 1 = 0 ∧ Int.fdiv ((-1) * 1) (2 ^ FRACTIONS) = -1 := by
  refine ⟨by decide, by decide, by decide, ?_, by decide⟩
  decide

/-! ### Instruction layout decoding (src/layout.ts)

The union `LyraeInstructionsUnion` reads a 4-byte little-endian discriminant,
applies the legacy zero-padding adjustment, and decodes the variant struct at
offset 4.  buffer-layout primitive semantics reproduced here:

* `Blob.decode` is `b.slice(offset, offset + length)` with **no bounds
  check** — a read past the end silently returns a shorter byte run, and
  `BNLayout` then builds the integer from however many bytes it got;
* `UInt.decode` is Node's `readUIntLE`, which **throws** when
  `offset + span > b.length`;
* `EnumLayout.decode` additionally throws on a value with no registered name;
* `bool` wraps `u8` (any nonzero byte decodes to `true`);
* struct decoding walks the fields in order advancing by each field's
  declared span.
-/

/-- A byte slice `b.slice(off, off + len)` (truncating, never failing). -/
def slice (b : List ℕ) (off len : ℕ) : List ℕ := (b.drop off).take len

/-- Two's-complement reinterpretation at width `w` (`BN.fromTwos(w)`). -/
def fromTwosW (w : ℕ) (v : ℕ) : ℤ := if 2 ^ (w - 1) ≤ v then (v : ℤ) - 2 ^ w else v

/-- Node `readUIntLE`: bounds-checked little-endian read of `span` bytes. -/
def uintDecode (b : List ℕ) (off span : ℕ) : Option ℕ :=
  if off + span ≤ b.length then some (leVal (slice b off span)) else none

/-- The primitive field layouts appearing in the instruction union. -/
inductive FieldKind where
  | uint (span : ℕ)
  | enum (span : ℕ) (vals : List ℕ)
  | boolByte
  | blobInt (len : ℕ) (signed : Bool)
  | i80f48
  | seqU8 (n : ℕ)

/-- A decoded field value. -/
inductive FieldVal where
  | int (z : ℤ)
  | nat (n : ℕ)
  | bool (b : Bool)
  | list (l : List ℕ)
deriving DecidableEq

/-- Decode one field at `off`, returning the value and the declared span. -/
def decodeField (k : FieldKind) (b : List ℕ) (off : ℕ) : Option (FieldVal × ℕ) :=
  match k with
  | .uint span => (uintDecode b off span).map (fun v => (.nat v, span))
  | .enum span vals =>
      match uintDecode b off span with
      | some v => if v ∈ vals then some (.nat v, span) else none
      | none => none
  | .boolByte => (uintDecode b off 1).map (fun v => (.bool (v != 0), 1))
  | .blobInt len signed =>
      some (.int (if signed then fromTwosW (8 * len) (leVal (slice b off len))
                  else (leVal (slice b off len) : ℤ)), len)
  | .i80f48 =>
      match i80New (i80FromTwos (leVal (slice b off 16))) with
      | .ok z => some (.int z, 16)
      | .error _ => none
  | .seqU8 n => if off + n ≤ b.length then some (.list (slice b off n), n) else none

/-- Decode a struct (ordered field list) starting at `off`. -/
def decodeStruct (fields : List FieldKind) (b : List ℕ) (off : ℕ) :
    Option (List FieldVal) :=
  match fields with
  | [] => some []
  | k :: ks =>
      match decodeField k b off with
      | none => none
      | some (v, span) => (decodeStruct ks b (off + span)).map (fun vs => v :: vs)

@[reducible] def fU8 : FieldKind := .uint 1
@[reducible] def fU16 : FieldKind := .uint 2
@[reducible] def fU32 : FieldKind := .uint 4
@[reducible] def fU64 : FieldKind := .blobInt 8 false
@[reducible] def fI64 : FieldKind := .blobInt 8 true
@[reducible] def fU128 : FieldKind := .blobInt 16 false
@[reducible] def fI128 : FieldKind := .blobInt 16 true
@[reducible] def fF48 : FieldKind := .i80f48
@[reducible] def fBool : FieldKind := .boolByte
def fSide4 : FieldKind := .enum 4 [0, 1]
def fSide1 : FieldKind := .enum 1 [0, 1]
def fOrderType4 : FieldKind := .enum 4 [0, 1, 2, 3, 4]
def fOrderType1 : FieldKind := .enum 1 [0, 1, 2, 3, 4]
def fSelfTrade4 : FieldKind := .enum 4 [0, 1, 2]
def fTrigger1 : FieldKind := .enum 1 [0, 1]

/-- The variant registry built by the `addVariant` calls in src/layout.ts
(discriminant 40 is never registered). -/
def registry : ℕ → Option (List FieldKind)
  | 0 => some [fU64, fU64, fF48, fF48, fF48]
  | 1 => some []
  | 2 => some [fU64]
  | 3 => some [fU64, fU8]
  | 4 => some [fF48, fF48, fF48, fF48, fF48, fF48]
  | 5 => some [fU64]
  | 6 => some [fU64]
  | 7 => some []
  | 8 => some []
  | 9 => some [fSide4, fU64, fU64, fU64, fSelfTrade4, fOrderType4, fU64, fU16]
  | 10 => some []
  | 11 => some [fF48, fF48, fF48, fF48, fF48, fI64, fI64, fF48, fF48, fU64, fU64, fU8]
  | 12 => some [fI64, fI64, fU64, fSide1, fOrderType1, fBool]
  | 13 => some [fU64, fBool]
  | 14 => some [fI128, fBool]
  | 15 => some [fU64]
  | 16 => some []
  | 17 => some []
  | 18 => some [fF48]
  | 19 => some []
  | 20 => some [fSide4, fU128]
  | 21 => some []
  | 22 => some [fU64]
  | 23 => some [fU64, fU64]
  | 24 => some [fU8]
  | 25 => some [fU8]
  | 26 => some [fF48]
  | 27 => some [fU8, fU64, fU8, fU64, fF48]
  | 28 => some [fI64]
  | 29 => some []
  | 30 => some [fU64, fF48]
  | 31 => some [fF48]
  | 32 => some []
  | 33 => some []
  | 34 => some [.seqU8 32]
  | 35 => some [fU64]
  | 36 => some [fU64]
  | 37 => some [fBool, fF48, fBool, fF48, fBool, fF48, fBool, fF48, fBool, fF48,
                fBool, fF48, fBool, fF48, fBool, fU64, fBool, fU64, fBool, fU8]
  | 38 => some []
  | 39 => some [fU8]
  | 41 => some [fSide4, fU64, fU64, fU64, fSelfTrade4, fOrderType4, fU64, fU16]
  | 42 => some []
  | 43 => some [fOrderType1, fSide1, fTrigger1, fBool, fU64, fI64, fI64, fF48]
  | 44 => some [fU8]
  | 45 => some [fU8]
  | 46 => some [fF48, fF48, fF48, fF48, fF48, fI64, fI64, fF48, fF48, fU64, fU64,
                fU8, fU8, fU8, fU8]
  | 47 => some [fBool, fF48, fBool, fF48, fBool, fF48, fBool, fF48, fBool, fF48,
                fBool, fF48, fBool, fF48, fBool, fU64, fBool, fU64, fBool, fU8,
                fBool, fU8, fBool, fU8]
  | 48 => some []
  | 49 => some [fU32]
  | 50 => some []
  | 51 => some []
  | 52 => some []
  | 53 => some []
  | 54 => some []
  | 55 => some [fU64]
  | 56 => some []
  | 57 => some [fSide1, fU8]
  | 58 => some []
  | 59 => some [fBool, fF48, fBool, fF48, fBool, fF48, fBool, fF48, fBool, fF48,
                fBool, fF48, fBool, fU8]
  | 60 => some []
  | _ => none

/-- The legacy zero-padding adjustment in `LyraeInstructionsUnion.decode`:
`(discr 11, length 144)` and `(discr 12, length 30)` get one zero byte,
`(discr 37, length 141)` gets two, everything else is left alone. -/
def legacyPad (discr : ℕ) (b : List ℕ) : List ℕ :=
  if (discr = 11 ∧ b.length = 144) ∨ (discr = 12 ∧ b.length = 30) then b ++ [0]
  else if discr = 37 ∧ b.length = 141 then b ++ [0, 0]
  else b

/-- `Union.decode` without the legacy adjustment: read the 4-byte
discriminant, look up the variant, decode its struct at offset 4. -/
def decodeInstructionNoPad (b : List ℕ) : Option (ℕ × List FieldVal) :=
  match uintDecode b 0 4 with
  | none => none
  | some discr =>
      match registry discr with
      | none => none
      | some fields => (decodeStruct fields b 4).map (fun vs => (discr, vs))

/-- `LyraeInstructionsUnion.decode`: read the discriminant, apply the legacy
padding, then decode normally. -/
def decodeLyraeInstruction (b : List ℕ) : Option (ℕ × List FieldVal) :=
  match uintDecode b 0 4 with
  | none => none
  | some discr => decodeInstructionNoPad (legacyPad discr b)

theorem slice_append (b t : List ℕ) (off len : ℕ) (h : off + len ≤ b.length) :
    slice (b ++ t) off len = slice b off len := by
  unfold slice
  rw [List.drop_append_of_le_length (by omega)]
  rw [List.take_append_of_le_length (by simp [List.length_drop]; omega)]

theorem uintDecode_append (b t : List ℕ) (off span : ℕ)
    (h : off + span ≤ b.length) :
    uintDecode (b ++ t) off span = uintDecode b off span := by
  unfold uintDecode
  rw [slice_append b t off span h]
  simp only [List.length_append]
  rw [if_pos (by omega), if_pos h]

theorem decodeStruct_blob_none (len : ℕ) (s : Bool) (ks : List FieldKind)
    (b : List ℕ) (off : ℕ) (h : decodeStruct ks b (off + len) = none) :
    decodeStruct (.blobInt len s :: ks) b off = none := by
  simp [decodeStruct, decodeField, h]

theorem decodeStruct_f48_none (ks : List FieldKind) (b : List ℕ) (off : ℕ)
    (h : decodeStruct ks b (off + 16) = none) :
    decodeStruct (.i80f48 :: ks) b off = none := by
  simp only [decodeStruct, decodeField]
  rcases hi : i80New (i80FromTwos (leVal (slice b off 16))) with e | z
  · rfl
  · simp [h]

theorem decodeStruct_u8_none (ks : List FieldKind) (b : List ℕ) (off : ℕ)
    (h : b.length < off + 1) :
    decodeStruct (.uint 1 :: ks) b off = none := by
  simp [decodeStruct, decodeField, uintDecode, Nat.not_le.mpr h]

/-- C3 (counterexample): a zero-filled 144-byte buffer with discriminant 11
does not decode to the same value as that buffer zero-padded to the current
149-byte span of variant 11 — the legacy branch pads it by a single byte to
145 bytes, which is still four bytes short, and the trailing `u8` field read
fails, so the left side is an error while the right side decodes. -/
theorem legacy_pad_discr11_diverges :
    decodeLyraeInstruction (11 :: 0 :: 0 :: 0 :: List.replicate 140 0) ≠
      decodeLyraeInstruction
        ((11 :: 0 :: 0 :: 0 :: List.replicate 140 0) ++ List.replicate 5 0) := by
  decide

/-- C3 (amended): for the pairs (discriminant 12, length 30) — padded with
one zero byte — and (discriminant 37, length 141) — padded with two — a
legacy buffer decodes exactly as the buffer zero-padded to the current
variant length; for the pair (discriminant 11, length 144) the code pads by
only one byte, leaving the buffer short of variant 11's 149-byte span, so
the decode always fails instead; and a buffer matching none of the three
(discriminant, length) pairs is decoded without padding. -/
theorem legacy_decode_pairs :
    (∀ b : List ℕ, b.length = 30 → uintDecode b 0 4 = some 12 →
       decodeLyraeInstruction b = decodeLyraeInstruction (b ++ [0])) ∧
    (∀ b : List ℕ, b.length = 141 → uintDecode b 0 4 = some 37 →
       decodeLyraeInstruction b = decodeLyraeInstruction (b ++ [0, 0])) ∧
    (∀ b : List ℕ, b.length = 144 → uintDecode b 0 4 = some 11 →
       decodeLyraeInstruction b = none) ∧
    (∀ (b : List ℕ) (d : ℕ), uintDecode b 0 4 = some d →
       ¬((d = 11 ∧ b.length = 144) ∨ (d = 12 ∧ b.length = 30) ∨
         (d = 37 ∧ b.length = 141)) →
       decodeLyraeInstruction b = decodeInstructionNoPad b) := by
  refine ⟨?_, ?_, ?_, ?_⟩
  · intro b hb hd
    have hd' : uintDecode (b ++ [0]) 0 4 = some 12 := by
      rw [uintDecode_append b [0] 0 4 (by omega), hd]
    simp only [decodeLyraeInstruction, hd, hd', legacyPad, hb,
      List.length_append, List.length_cons, List.length_nil]
    norm_num
  · intro b hb hd
    have hd' : uintDecode (b ++ [0, 0]) 0 4 = some 37 := by
      rw [uintDecode_append b [0, 0] 0 4 (by omega), hd]
    simp only [decodeLyraeInstruction, hd, hd', legacyPad, hb,
      List.length_append, List.length_cons, List.length_nil]
    norm_num
  · intro b hb hd
    have hd' : uintDecode (b ++ [0]) 0 4 = some 11 := by
      rw [uintDecode_append b [0] 0 4 (by omega), hd]
    have hpad : legacyPad 11 b = b ++ [0] := by
      simp [legacyPad, hb]
    have hlen : (b ++ [0]).length = 145 := by simp [hb]
    simp only [decodeLyraeInstruction, hd, hpad, decodeInstructionNoPad, hd',
      registry]
    have hstruct : decodeStruct
        [fF48, fF48, fF48, fF48, fF48, fI64, fI64, fF48, fF48, fU64, fU64, fU8]
        (b ++ [0]) 4 = none := by
      apply decodeStruct_f48_none
      apply decodeStruct_f48_none
      apply decodeStruct_f48_none
      apply decodeStruct_f48_none
      apply decodeStruct_f48_none
      apply decodeStruct_blob_none
      apply decodeStruct_blob_none
      apply decodeStruct_f48_none
      apply decodeStruct_f48_none
      apply decodeStruct_blob_none
      apply decodeStruct_blob_none
      apply decodeStruct_u8_none
      omega
    rw [hstruct]
    rfl
  · intro b d hd hpairs
    have hpad : legacyPad d b = b := by
      unfold legacyPad
      rw [if_neg (by tauto), if_neg (by tauto)]
    simp only [decodeLyraeInstruction, hd, hpad]

/-- Witness for `legacy_decode_pairs`, applying each conjunct at a concrete
buffer. -/
theorem legacy_decode_pairs_witness :
    decodeLyraeInstruction (12 :: 0 :: 0 :: 0 :: List.replicate 26 0) =
      decodeLyraeInstruction ((12 :: 0 :: 0 :: 0 :: List.replicate 26 0) ++ [0]) ∧
    decodeLyraeInstruction (37 :: 0 :: 0 :: 0 :: List.replicate 137 0) =
      decodeLyraeInstruction
        ((37 :: 0 :: 0 :: 0 :: List.replicate 137 0) ++ [0, 0]) ∧
    decodeLyraeInstruction (11 :: 0 :: 0 :: 0 :: List.replicate 140 0) = none ∧
    decodeLyraeInstruction (2 :: 0 :: 0 :: 0 :: List.replicate 8 0) =
      decodeInstructionNoPad (2 :: 0 :: 0 :: 0 :: List.replicate 8 0) :=
  ⟨legacy_decode_pairs.1 _ (by decide) (by decide),
   legacy_decode_pairs.2.1 _ (by decide) (by decide),
   legacy_decode_pairs.2.2.1 _ (by decide) (by decide),
   legacy_decode_pairs.2.2.2 _ 2 (by decide) (by decide)⟩

/-! ### State model entities (src/layout.ts, src/LyraeGroup.ts, part_009)

Decoded entities carry fixed-length arrays that are always fully populated,
embedded as total functions from the index.  Public keys are embedded as `ℕ`
with `0` standing for the all-zero key (`zeroKey`). -/

/-- `QUOTE_INDEX = MAX_TOKENS - 1 = 15`. -/
def QUOTE_INDEX : ℕ := 15

/-- One `PriceCache` slot (raw I80F48 price). -/
structure PriceCache where
  price : ℤ

/-- One `RootBankCache` slot. -/
structure RootBankCache where
  depositIndex : ℤ
  borrowIndex : ℤ

/-- One `PerpMarketCache` slot. -/
structure PerpMarketCache where
  longFunding : ℤ
  shortFunding : ℤ

/-- `LyraeCache`: point-in-time price / bank-index / funding snapshot. -/
structure LyraeCache where
  priceCache : ℕ → PriceCache
  rootBankCache : ℕ → RootBankCache
  perpMarketCache : ℕ → PerpMarketCache

/-- `SpotMarketInfo` weights (raw I80F48). -/
structure SpotMarketInfo where
  maintAssetWeight : ℤ
  initAssetWeight : ℤ
  maintLiabWeight : ℤ
  initLiabWeight : ℤ

/-- `PerpMarketInfo`: weights, lot sizes and the perp-market key
(`perpMarket = 0` models the all-zero key, i.e. no market registered). -/
structure PerpMarketInfo where
  perpMarket : ℕ
  maintAssetWeight : ℤ
  initAssetWeight : ℤ
  maintLiabWeight : ℤ
  initLiabWeight : ℤ
  baseLotSize : ℤ
  quoteLotSize : ℤ

/-- `TokenInfo` (only the declared decimal count matters here). -/
structure TokenInfo where
  decimals : ℕ

/-- `LyraeGroup` as constructed from the decoded layout; the constructor
filters zero keys out of `oracles`, so it is a list. -/
structure LyraeGroup where
  numOracles : ℕ
  tokens : ℕ → TokenInfo
  spotMarkets : ℕ → SpotMarketInfo
  perpMarkets : ℕ → PerpMarketInfo
  oracles : List ℕ

/-- A serum `OpenOrders` account (u64 token amounts as decoded BNs). -/
structure OpenOrders where
  baseTokenFree : ℤ
  baseTokenTotal : ℤ
  quoteTokenFree : ℤ
  quoteTokenTotal : ℤ
  referrerRebatesAccrued : ℤ

/-- `PerpAccount` fields used by the health engine. -/
structure PerpAccount where
  basePosition : ℤ
  quotePosition : ℤ
  longSettledFunding : ℤ
  shortSettledFunding : ℤ
  bidsQuantity : ℤ
  asksQuantity : ℤ
  takerBase : ℤ
  takerQuote : ℤ

/-- `LyraeAccount` fields used by the health engine. -/
structure LyraeAccount where
  deposits : ℕ → ℤ
  borrows : ℕ → ℤ
  inMarginBasket : ℕ → Bool
  spotOpenOrdersAccounts : ℕ → Option OpenOrders
  perpAccounts : ℕ → PerpAccount
  beingLiquidated : Bool

/-- `HealthType` (`'Init' | 'Maint'`). -/
inductive HealthType where
  | init
  | maint
deriving DecidableEq

/-- The record returned by `getWeights` (src/utils/utils.ts). -/
structure Weights where
  spotAssetWeight : ℤ
  spotLiabWeight : ℤ
  perpAssetWeight : ℤ
  perpLiabWeight : ℤ

/-- `getWeights`: maint / init weights of market `i`, or all ones when no
health type is given. -/
def getWeights (g : LyraeGroup) (i : ℕ) (healthType : Option HealthType) :
    Weights :=
  match healthType with
  | some .maint =>
      ⟨(g.spotMarkets i).maintAssetWeight, (g.spotMarkets i).maintLiabWeight,
       (g.perpMarkets i).maintAssetWeight, (g.perpMarkets i).maintLiabWeight⟩
  | some .init =>
      ⟨(g.spotMarkets i).initAssetWeight, (g.spotMarkets i).initLiabWeight,
       (g.perpMarkets i).initAssetWeight, (g.perpMarkets i).initLiabWeight⟩
  | none => ⟨ONE, ONE, ONE, ONE⟩

/-- The record returned by `splitOpenOrders` (src/utils/utils.ts):
free/locked base and quote amounts, each lifted by `I80F48.fromU64`. -/
structure OpenOrdersSplit where
  quoteFree : ℤ
  quoteLocked : ℤ
  baseFree : ℤ
  baseLocked : ℤ

/-- `splitOpenOrders` (src/utils/utils.ts). -/
def splitOpenOrders (oo : OpenOrders) : OpenOrdersSplit :=
  ⟨i80FromI64 (oo.quoteTokenFree + oo.referrerRebatesAccrued),
   i80FromI64 (oo.quoteTokenTotal - oo.quoteTokenFree),
   i80FromI64 oo.baseTokenFree,
   i80FromI64 (oo.baseTokenTotal - oo.baseTokenFree)⟩

/-- `LyraeAccount.getNet`: deposit shares times deposit index minus borrow
shares times borrow index. -/
def getNet (a : LyraeAccount) (bankCache : RootBankCache) (tokenIndex : ℕ) : ℤ :=
  i80Mul (a.deposits tokenIndex) bankCache.depositIndex -
    i80Mul (a.borrows tokenIndex) bankCache.borrowIndex

/-- Modelled from the spec: `PerpAccount.getUnsettledFunding`.  The
`PerpAccount` source file is not under src/ (only its callers are); per the
spec, funding is a "periodic perp quote-position adjustment" accrued on the
base position against the cached cumulative funding (long side for a long
position, short side for a short position) net of the funding already
settled into the account. -/
def getUnsettledFunding (pa : PerpAccount) (pmc : PerpMarketCache) : ℤ :=
  if pa.basePosition < 0 then
    i80Mul (i80FromI64 pa.basePosition) (pmc.shortFunding - pa.shortSettledFunding)
  else
    i80Mul (i80FromI64 pa.basePosition) (pmc.longFunding - pa.longSettledFunding)

/-- Modelled from the spec: `PerpAccount.getQuotePosition`, the perp quote
position "which itself includes unsettled funding" — the stored quote
position net of unsettled funding. -/
def getQuotePosition (pa : PerpAccount) (pmc : PerpMarketCache) : ℤ :=
  pa.quotePosition - getUnsettledFunding pa pmc

/-- The result record of `getHealthComponents`: per-market spot and perp
positions plus the quote bucket. -/
structure HealthComponents where
  spot : List ℤ
  perps : List ℤ
  quote : ℤ

/-- One iteration of the `getHealthComponents` loop, translated statement by
statement from part_009 lines 588-660; `st.quote` threads the in-place
`iadd`/`isub` mutations of the `quote` accumulator. -/
def healthComponentsStep (g : LyraeGroup) (a : LyraeAccount) (c : LyraeCache)
    (st : HealthComponents) (i : ℕ) : HealthComponents :=
  let bankCache := c.rootBankCache i
  let price := (c.priceCache i).price
  let baseNet := getNet a bankCache i
  let spotRes : ℤ × ℤ :=
    match a.inMarginBasket i, a.spotOpenOrdersAccounts i with
    | true, some openOrders =>
        let s := splitOpenOrders openOrders
        let bidsBaseNet := baseNet + i80Div s.quoteLocked price + s.baseFree +
          s.baseLocked
        let asksBaseNet := baseNet + s.baseFree
        if i80Abs asksBaseNet < i80Abs bidsBaseNet then
          (bidsBaseNet, st.quote + s.quoteFree)
        else
          (asksBaseNet,
           st.quote + i80Mul s.baseLocked price + s.quoteFree + s.quoteLocked)
    | _, _ => (baseNet, st.quote)
  let perpRes : ℤ × ℤ :=
    if (g.perpMarkets i).perpMarket ≠ 0 then
      let pmc := c.perpMarketCache i
      let pa := a.perpAccounts i
      let baseLotSize := (g.perpMarkets i).baseLotSize
      let quoteLotSize := (g.perpMarkets i).quoteLotSize
      let takerQuote := i80FromI64 (pa.takerQuote * quoteLotSize)
      let basePos := i80FromI64 ((pa.basePosition + pa.takerBase) * baseLotSize)
      let bidsQuantity := i80FromI64 (pa.bidsQuantity * baseLotSize)
      let asksQuantity := i80FromI64 (pa.asksQuantity * baseLotSize)
      let bidsBaseNet := basePos + bidsQuantity
      let asksBaseNet := basePos - asksQuantity
      if i80Abs asksBaseNet < i80Abs bidsBaseNet then
        (bidsBaseNet,
         spotRes.2 + (getQuotePosition pa pmc + takerQuote - i80Mul bidsQuantity price))
      else
        (asksBaseNet,
         spotRes.2 + (getQuotePosition pa pmc + takerQuote + i80Mul asksQuantity price))
    else (ZERO, spotRes.2)
  { spot := st.spot ++ [spotRes.1], perps := st.perps ++ [perpRes.1],
    quote := perpRes.2 }

/-- `LyraeAccount.getHealthComponents`: loop over all oracle indices starting
from the quote-token net position. -/
def getHealthComponents (g : LyraeGroup) (a : LyraeAccount) (c : LyraeCache) :
    HealthComponents :=
  (List.range g.numOracles).foldl (healthComponentsStep g a c)
    { spot := [], perps := [],
      quote := getNet a (c.rootBankCache QUOTE_INDEX) QUOTE_INDEX }

/-- One iteration of the `getWeightedAssetsLiabsVals` loop (part_009 lines
462-476); the state is the `(assets, liabs)` pair. -/
def weightedStep (g : LyraeGroup) (c : LyraeCache) (spot perps : List ℤ)
    (healthType : Option HealthType) (st : ℤ × ℤ) (i : ℕ) : ℤ × ℤ :=
  let w := getWeights g i healthType
  let price := (c.priceCache i).price
  let s := spot.getD i 0
  let p := perps.getD i 0
  let st1 : ℤ × ℤ :=
    if 0 < s then (i80Mul (i80Mul s price) w.spotAssetWeight + st.1, st.2)
    else (st.1, i80Mul (i80Mul (i80Neg s) price) w.spotLiabWeight + st.2)
  if 0 < p then (i80Mul (i80Mul p price) w.perpAssetWeight + st1.1, st1.2)
  else (st1.1, i80Mul (i80Mul (i80Neg p) price) w.perpLiabWeight + st1.2)

/-- `LyraeAccount.getWeightedAssetsLiabsVals`. -/
def getWeightedAssetsLiabsVals (g : LyraeGroup) (c : LyraeCache)
    (spot perps : List ℤ) (quote : ℤ) (healthType : Option HealthType) :
    ℤ × ℤ :=
  (List.range g.numOracles).foldl (weightedStep g c spot perps healthType)
    (if 0 < quote then (quote, ZERO) else (ZERO, i80Neg quote))

/-- `LyraeAccount.getHealthFromComponents`: a single health accumulator
seeded with the quote bucket. -/
def getHealthFromComponents (g : LyraeGroup) (c : LyraeCache)
    (spot perps : List ℤ) (quote : ℤ) (healthType : HealthType) : ℤ :=
  (List.range g.numOracles).foldl (fun health i =>
    let w := getWeights g i (some healthType)
    let price := (c.priceCache i).price
    let spotHealth := i80Mul (i80Mul (spot.getD i 0) price)
      (if 0 < spot.getD i 0 then w.spotAssetWeight else w.spotLiabWeight)
    let perpHealth := i80Mul (i80Mul (perps.getD i 0) price)
      (if 0 < perps.getD i 0 then w.perpAssetWeight else w.perpLiabWeight)
    health + spotHealth + perpHealth) quote

/-- `LyraeAccount.getHealthsFromComponents`.  In the source both local
names alias the same mutable BN (`const spotHealth = quote; const
perpHealth = quote;`) and `iadd` mutates that shared cell in place, so the
two accumulators are one; the embedding folds the single shared accumulator
and returns it as both fields of the record. -/
def getHealthsFromComponents (g : LyraeGroup) (c : LyraeCache)
    (spot perps : List ℤ) (quote : ℤ) (healthType : HealthType) : ℤ × ℤ :=
  let h := (List.range g.numOracles).foldl (fun acc i =>
    let w := getWeights g i (some healthType)
    let price := (c.priceCache i).price
    let spotHealth := i80Mul (i80Mul (spot.getD i 0) price)
      (if 0 < spot.getD i 0 then w.spotAssetWeight else w.spotLiabWeight)
    let perpHealth := i80Mul (i80Mul (perps.getD i 0) price)
      (if 0 < perps.getD i 0 then w.perpAssetWeight else w.perpLiabWeight)
    acc + spotHealth + perpHealth) quote
  (h, h)

/-- `LyraeAccount.getHealth`. -/
def getHealth (g : LyraeGroup) (a : LyraeAccount) (c : LyraeCache)
    (healthType : HealthType) : ℤ :=
  let comps := getHealthComponents g a c
  getHealthFromComponents g c comps.spot comps.perps comps.quote healthType

/-- `LyraeAccount.getHealthRatio`: 100 when weighted liabilities are not
positive, otherwise `100 * (assets / liabs - 1)` in fixed point. -/
def getHealthRatio (g : LyraeGroup) (a : LyraeAccount) (c : LyraeCache)
    (healthType : HealthType) : ℤ :=
  let comps := getHealthComponents g a c
  let al := getWeightedAssetsLiabsVals g c comps.spot comps.perps comps.quote
    (some healthType)
  if 0 < al.2 then i80Mul (i80Div al.1 al.2 - ONE) HUNDRED else HUNDRED

/-- The `'spot' | 'perp'` market-type argument. -/
inductive MarketType where
  | spot
  | perp
deriving DecidableEq

/-- `LyraeAccount.getMarketMarginAvailable`. -/
def getMarketMarginAvailable (g : LyraeGroup) (a : LyraeAccount)
    (c : LyraeCache) (marketIndex : ℕ) (marketType : MarketType) : ℤ :=
  let health := getHealth g a c .init
  if health ≤ ZERO then ZERO
  else
    let w := getWeights g marketIndex (some .init)
    let weight := match marketType with
      | .spot => w.spotAssetWeight
      | .perp => w.perpAssetWeight
    if ONE ≤ weight then health
    else i80Div health (ONE - weight)

/-- `LyraeCache.getPrice`: the quote index is pinned to one, every other
index reads the cached price. -/
def cacheGetPrice (c : LyraeCache) (tokenIndex : ℕ) : ℤ :=
  if tokenIndex = QUOTE_INDEX then ONE else (c.priceCache tokenIndex).price

/-- `LyraeGroup.getTokenDecimals`: a zero decimal count falls back to 6 when
an oracle exists at the index and fails otherwise (`none` models both the
explicit throw and the crash on a missing oracle slot). -/
def getTokenDecimals (g : LyraeGroup) (tokenIndex : ℕ) : Option ℕ :=
  if (g.tokens tokenIndex).decimals = 0 then
    match g.oracles.get? tokenIndex with
    | none => none
    | some o => if o = 0 then none else some 6
  else some (g.tokens tokenIndex).decimals

/-- Big.js division rounding for `Big.round(0)` with the default rounding
mode `RM = 1`: round `num / den` (`den > 0`) to the nearest integer, ties
away from zero. -/
def bigRoundHalfAway (num den : ℤ) : ℤ :=
  Int.sign num * ((2 * |num| + den) / (2 * den))

/-- `LyraeGroup.getPrice`: one for the quote index, otherwise the cached
price decimal-adjusted by `10^(decimals - quoteDecimals)` through exact
`Big` decimal arithmetic and `I80F48.fromBig` (which rounds half away from
zero and range-checks via the constructor). -/
def groupGetPrice (g : LyraeGroup) (c : LyraeCache) (tokenIndex : ℕ) :
    Option ℤ :=
  if tokenIndex = QUOTE_INDEX then some ONE
  else
    match getTokenDecimals g tokenIndex, getTokenDecimals g QUOTE_INDEX with
    | some d, some dq =>
        let raw := (c.priceCache tokenIndex).price
        let v := if dq ≤ d then raw * 10 ^ (d - dq)
                 else bigRoundHalfAway raw (10 ^ (dq - d))
        match i80New v with
        | .ok z => some z
        | .error _ => none
    | _, _ => none

/-! ### Shared concrete fixtures for witnesses -/

/-- A perp account with every field zero. -/
def zeroPerpAcct : PerpAccount := ⟨0, 0, 0, 0, 0, 0, 0, 0⟩

/-- A group with no oracles registered. -/
def emptyGroup : LyraeGroup :=
  ⟨0, fun _ => ⟨6⟩, fun _ => ⟨0, 0, 0, 0⟩, fun _ => ⟨0, 0, 0, 0, 0, 0, 0⟩, []⟩

/-- A cache whose prices and funding are zero and whose bank indices are one. -/
def unitCache : LyraeCache :=
  ⟨fun _ => ⟨0⟩, fun _ => ⟨ONE, ONE⟩, fun _ => ⟨0, 0⟩⟩

/-- An account with no balances, orders or positions. -/
def emptyAccount : LyraeAccount :=
  ⟨fun _ => 0, fun _ => 0, fun _ => false, fun _ => none, fun _ => zeroPerpAcct,
   false⟩

/-- An account owing exactly one unit of the quote token. -/
def borrowerAccount : LyraeAccount :=
  ⟨fun _ => 0, fun _ => ONE, fun _ => false, fun _ => none, fun _ => zeroPerpAcct,
   false⟩

/-! ### C8: price lookups -/

/-- C8: both price lookups return exactly one at the quote index regardless
of the price cache; every other index reads that index's cached oracle
price — the cache lookup returns it as is, and the group lookup depends on
the cache only through it. -/
theorem quote_index_price_pinned_to_one (g : LyraeGroup) (c c' : LyraeCache)
    (i : ℕ) :
    cacheGetPrice c QUOTE_INDEX = ONE ∧
    groupGetPrice g c QUOTE_INDEX = some ONE ∧
    (i ≠ QUOTE_INDEX → cacheGetPrice c i = (c.priceCache i).price) ∧
    (i ≠ QUOTE_INDEX → (c.priceCache i).price = (c'.priceCache i).price →
      groupGetPrice g c i = groupGetPrice g c' i) := by
  refine ⟨by simp [cacheGetPrice], by simp [groupGetPrice],
    fun h => by simp [cacheGetPrice, h], fun h he => ?_⟩
  simp only [groupGetPrice, if_neg h, he]

/-- Witness for `quote_index_price_pinned_to_one` at concrete caches and
index 0. -/
theorem quote_index_price_pinned_to_one_witness :
    cacheGetPrice unitCache QUOTE_INDEX = ONE ∧
    groupGetPrice emptyGroup unitCache QUOTE_INDEX = some ONE ∧
    cacheGetPrice unitCache 0 = (unitCache.priceCache 0).price ∧
    groupGetPrice emptyGroup unitCache 0 = groupGetPrice emptyGroup unitCache 0 :=
  ⟨(quote_index_price_pinned_to_one emptyGroup unitCache unitCache 0).1,
   (quote_index_price_pinned_to_one emptyGroup unitCache unitCache 0).2.1,
   (quote_index_price_pinned_to_one emptyGroup unitCache unitCache 0).2.2.1
     (by decide),
   (quote_index_price_pinned_to_one emptyGroup unitCache unitCache 0).2.2.2
     (by decide) rfl⟩

/-! ### C10: getMarketMarginAvailable -/

/-- The `weight` local of `getMarketMarginAvailable`: the requested market's
Init asset weight, spot or perp as requested. -/
def requestedInitAssetWeight (g : LyraeGroup) (marketIndex : ℕ)
    (marketType : MarketType) : ℤ :=
  match marketType with
  | .spot => (getWeights g marketIndex (some .init)).spotAssetWeight
  | .perp => (getWeights g marketIndex (some .init)).perpAssetWeight

/-- C10: `getMarketMarginAvailable` returns 0 when Initial health is not
positive; with positive health it returns the health unchanged when the
requested Init asset weight is at least one, and divides by `1 - weight`
only when the weight is strictly below one. -/
theorem market_margin_available_cases (g : LyraeGroup) (a : LyraeAccount)
    (c : LyraeCache) (mi : ℕ) (mt : MarketType) :
    (getHealth g a c .init ≤ 0 →
      getMarketMarginAvailable g a c mi mt = 0) ∧
    (0 < getHealth g a c .init → ONE ≤ requestedInitAssetWeight g mi mt →
      getMarketMarginAvailable g a c mi mt = getHealth g a c .init) ∧
    (0 < getHealth g a c .init → requestedInitAssetWeight g mi mt < ONE →
      getMarketMarginAvailable g a c mi mt =
        i80Div (getHealth g a c .init) (ONE - requestedInitAssetWeight g mi mt)) := by
  unfold getMarketMarginAvailable requestedInitAssetWeight
  cases mt <;> dsimp only <;>
    refine ⟨fun h => ?_, fun h hw => ?_, fun h hw => ?_⟩ <;>
    simp only [ZERO] <;>
    first
      | rw [if_pos h]
      | rw [if_neg (by omega), if_pos hw]
      | rw [if_neg (by omega), if_neg (by omega)]

/-- Witness for `market_margin_available_cases`: the empty account has zero
Initial health, so the margin available is zero. -/
theorem market_margin_available_cases_witness :
    getHealth emptyGroup emptyAccount unitCache .init ≤ 0 ∧
    getMarketMarginAvailable emptyGroup emptyAccount unitCache 0 .spot = 0 :=
  ⟨by decide,
   (market_margin_available_cases emptyGroup emptyAccount unitCache 0 .spot).1
     (by decide)⟩

/-! ### C9: getHealthsFromComponents aliases its two accumulators -/

theorem healths_fold_sum (g : LyraeGroup) (c : LyraeCache)
    (spot perps : List ℤ) (ht : HealthType) :
    ∀ (l : List ℕ) (init : ℤ),
    l.foldl (fun acc i =>
      let w := getWeights g i (some ht)
      let price := (c.priceCache i).price
      let spotHealth := i80Mul (i80Mul (spot.getD i 0) price)
        (if 0 < spot.getD i 0 then w.spotAssetWeight else w.spotLiabWeight)
      let perpHealth := i80Mul (i80Mul (perps.getD i 0) price)
        (if 0 < perps.getD i 0 then w.perpAssetWeight else w.perpLiabWeight)
      acc + spotHealth + perpHealth) init
    = init + (l.map (fun i =>
        i80Mul (i80Mul (spot.getD i 0) (c.priceCache i).price)
          (if 0 < spot.getD i 0 then (getWeights g i (some ht)).spotAssetWeight
           else (getWeights g i (some ht)).spotLiabWeight) +
        i80Mul (i80Mul (perps.getD i 0) (c.priceCache i).price)
          (if 0 < perps.getD i 0 then (getWeights g i (some ht)).perpAssetWeight
           else (getWeights g i (some ht)).perpLiabWeight))).sum
  | [], init => by simp
  | x :: xs, init => by
      rw [List.foldl_cons, healths_fold_sum g c spot perps ht xs]
      simp only [List.map_cons, List.sum_cons]
      ring

/-- C9: the record returned by `getHealthsFromComponents` has equal spot and
perp fields — both accumulators alias the same quote cell — and each equals
the quote value plus the sum over all markets of the weighted spot
contribution and the weighted perp contribution together, which is exactly
the single health computed by `getHealthFromComponents`. -/
theorem healths_from_components_share_accumulator (g : LyraeGroup)
    (c : LyraeCache) (spot perps : List ℤ) (quote : ℤ) (ht : HealthType) :
    (getHealthsFromComponents g c spot perps quote ht).1 =
      (getHealthsFromComponents g c spot perps quote ht).2 ∧
    (getHealthsFromComponents g c spot perps quote ht).1 =
      quote + ((List.range g.numOracles).map (fun i =>
        i80Mul (i80Mul (spot.getD i 0) (c.priceCache i).price)
          (if 0 < spot.getD i 0 then (getWeights g i (some ht)).spotAssetWeight
           else (getWeights g i (some ht)).spotLiabWeight) +
        i80Mul (i80Mul (perps.getD i 0) (c.priceCache i).price)
          (if 0 < perps.getD i 0 then (getWeights g i (some ht)).perpAssetWeight
           else (getWeights g i (some ht)).perpLiabWeight))).sum ∧
    (getHealthsFromComponents g c spot perps quote ht).1 =
      getHealthFromComponents g c spot perps quote ht := by
  refine ⟨rfl, ?_, rfl⟩
  unfold getHealthsFromComponents
  dsimp only
  rw [healths_fold_sum]

/-! ### C2: open-orders hypothesis selection in getHealthComponents

The next four definitions are the spec-side description of one loop
iteration (written from the claim's wording); the lemma
`healthComponentsStep_eq` proves the source loop body equal to them. -/

/-- Spec-side (C2): the "all resting bids execute" spot hypothesis —
confirmed net position plus quote-locked/price plus free and locked base. -/
def bidsExecuteSpot (a : LyraeAccount) (c : LyraeCache) (i : ℕ)
    (oo : OpenOrders) : ℤ :=
  getNet a (c.rootBankCache i) i +
    i80Div (splitOpenOrders oo).quoteLocked (c.priceCache i).price +
    (splitOpenOrders oo).baseFree + (splitOpenOrders oo).baseLocked

/-- Spec-side (C2): the "all resting asks execute" spot hypothesis —
confirmed net position plus free base. -/
def asksExecuteSpot (a : LyraeAccount) (c : LyraeCache) (i : ℕ)
    (oo : OpenOrders) : ℤ :=
  getNet a (c.rootBankCache i) i + (splitOpenOrders oo).baseFree

/-- Spec-side (C2): the spot position the engine keeps for market `i` — the
hypothesis with the larger absolute position when an in-basket open-orders
account exists, the confirmed net position otherwise. -/
def specSpotPosition (a : LyraeAccount) (c : LyraeCache) (i : ℕ) : ℤ :=
  match a.inMarginBasket i, a.spotOpenOrdersAccounts i with
  | true, some oo =>
      if i80Abs (asksExecuteSpot a c i oo) < i80Abs (bidsExecuteSpot a c i oo)
      then bidsExecuteSpot a c i oo else asksExecuteSpot a c i oo
  | _, _ => getNet a (c.rootBankCache i) i

/-- Spec-side (C2): the quote-bucket adjustment belonging to the selected
spot hypothesis — quote-free for the bids hypothesis, base-locked times
price plus quote-free plus quote-locked for the asks hypothesis. -/
def specSpotQuoteAdj (a : LyraeAccount) (c : LyraeCache) (i : ℕ) : ℤ :=
  match a.inMarginBasket i, a.spotOpenOrdersAccounts i with
  | true, some oo =>
      if i80Abs (asksExecuteSpot a c i oo) < i80Abs (bidsExecuteSpot a c i oo)
      then (splitOpenOrders oo).quoteFree
      else i80Mul (splitOpenOrders oo).baseLocked (c.priceCache i).price +
        (splitOpenOrders oo).quoteFree + (splitOpenOrders oo).quoteLocked
  | _, _ => 0

/-- The per-market perp position kept by the loop (source form). -/
def specPerpPosition (g : LyraeGroup) (a : LyraeAccount) (c : LyraeCache)
    (i : ℕ) : ℤ :=
  if (g.perpMarkets i).perpMarket ≠ 0 then
    let pa := a.perpAccounts i
    let baseLotSize := (g.perpMarkets i).baseLotSize
    let basePos := i80FromI64 ((pa.basePosition + pa.takerBase) * baseLotSize)
    let bidsQuantity := i80FromI64 (pa.bidsQuantity * baseLotSize)
    let asksQuantity := i80FromI64 (pa.asksQuantity * baseLotSize)
    if i80Abs (basePos - asksQuantity) < i80Abs (basePos + bidsQuantity)
    then basePos + bidsQuantity else basePos - asksQuantity
  else ZERO

/-- The per-market perp quote-bucket contribution of the loop (source
form). -/
def specPerpQuoteAdj (g : LyraeGroup) (a : LyraeAccount) (c : LyraeCache)
    (i : ℕ) : ℤ :=
  if (g.perpMarkets i).perpMarket ≠ 0 then
    let pmc := c.perpMarketCache i
    let pa := a.perpAccounts i
    let baseLotSize := (g.perpMarkets i).baseLotSize
    let quoteLotSize := (g.perpMarkets i).quoteLotSize
    let takerQuote := i80FromI64 (pa.takerQuote * quoteLotSize)
    let basePos := i80FromI64 ((pa.basePosition + pa.takerBase) * baseLotSize)
    let bidsQuantity := i80FromI64 (pa.bidsQuantity * baseLotSize)
    let asksQuantity := i80FromI64 (pa.asksQuantity * baseLotSize)
    if i80Abs (basePos - asksQuantity) < i80Abs (basePos + bidsQuantity)
    then getQuotePosition pa pmc + takerQuote -
      i80Mul bidsQuantity (c.priceCache i).price
    else getQuotePosition pa pmc + takerQuote +
      i80Mul asksQuantity (c.priceCache i).price
  else 0

theorem healthComponentsStep_eq (g : LyraeGroup) (a : LyraeAccount)
    (c : LyraeCache) (st : HealthComponents) (i : ℕ) :
    healthComponentsStep g a c st i =
      { spot := st.spot ++ [specSpotPosition a c i],
        perps := st.perps ++ [specPerpPosition g a c i],
        quote := st.quote + (specSpotQuoteAdj a c i + specPerpQuoteAdj g a c i) } := by
  unfold healthComponentsStep specSpotPosition specPerpPosition
    specSpotQuoteAdj specPerpQuoteAdj bidsExecuteSpot asksExecuteSpot
  cases hb : a.inMarginBasket i <;> cases ho : a.spotOpenOrdersAccounts i <;>
    simp only [hb, ho] <;>
    split_ifs <;>
    simp [HealthComponents.mk.injEq, ZERO] <;>
    ring

theorem foldl_healthComponentsStep (g : LyraeGroup) (a : LyraeAccount)
    (c : LyraeCache) :
    ∀ (l : List ℕ) (st : HealthComponents),
    l.foldl (healthComponentsStep g a c) st =
      { spot := st.spot ++ l.map (specSpotPosition a c),
        perps := st.perps ++ l.map (specPerpPosition g a c),
        quote := st.quote +
          (l.map (fun j => specSpotQuoteAdj a c j + specPerpQuoteAdj g a c j)).sum }
  | [], st => by simp
  | x :: xs, st => by
      rw [List.foldl_cons, healthComponentsStep_eq,
        foldl_healthComponentsStep g a c xs]
      simp only [HealthComponents.mk.injEq, List.map_cons, List.sum_cons,
        List.append_assoc, List.singleton_append]
      refine ⟨by trivial, by trivial, by ring⟩

theorem getHealthComponents_closed (g : LyraeGroup) (a : LyraeAccount)
    (c : LyraeCache) :
    getHealthComponents g a c =
      { spot := (List.range g.numOracles).map (specSpotPosition a c),
        perps := (List.range g.numOracles).map (specPerpPosition g a c),
        quote := getNet a (c.rootBankCache QUOTE_INDEX) QUOTE_INDEX +
          ((List.range g.numOracles).map
            (fun j => specSpotQuoteAdj a c j + specPerpQuoteAdj g a c j)).sum } := by
  unfold getHealthComponents
  rw [foldl_healthComponentsStep]
  simp

/-- C2: for every market index carrying an in-basket open-orders account,
the engine keeps the spot hypothesis with the larger absolute position
(bids = confirmed net + quote-locked/price + base-free + base-locked, asks
= confirmed net + base-free), the selected hypothesis contributes its own
quote adjustment (quote-free for bids; base-locked×price + quote-free +
quote-locked for asks), and the final quote bucket is the quote net
position plus the sum of the per-market adjustments. -/
theorem spot_hypothesis_selection (g : LyraeGroup) (a : LyraeAccount)
    (c : LyraeCache) (i : ℕ) (oo : OpenOrders) (hi : i < g.numOracles)
    (hb : a.inMarginBasket i = true)
    (ho : a.spotOpenOrdersAccounts i = some oo) :
    ((getHealthComponents g a c).spot.getD i 0 =
      if i80Abs (asksExecuteSpot a c i oo) < i80Abs (bidsExecuteSpot a c i oo)
      then bidsExecuteSpot a c i oo else asksExecuteSpot a c i oo) ∧
    (specSpotQuoteAdj a c i =
      if i80Abs (asksExecuteSpot a c i oo) < i80Abs (bidsExecuteSpot a c i oo)
      then (splitOpenOrders oo).quoteFree
      else i80Mul (splitOpenOrders oo).baseLocked (c.priceCache i).price +
        (splitOpenOrders oo).quoteFree + (splitOpenOrders oo).quoteLocked) ∧
    ((getHealthComponents g a c).quote =
      getNet a (c.rootBankCache QUOTE_INDEX) QUOTE_INDEX +
      ((List.range g.numOracles).map
        (fun j => specSpotQuoteAdj a c j + specPerpQuoteAdj g a c j)).sum) := by
  refine ⟨?_, ?_, ?_⟩
  · rw [getHealthComponents_closed]
    simp only [List.getD_eq_getElem?_getD, List.getElem?_map,
      List.getElem?_range hi, Option.map_some, Option.getD_some]
    simp [specSpotPosition, hb, ho]
  · simp [specSpotQuoteAdj, hb, ho]
  · rw [getHealthComponents_closed]

/-! ### C4: health ratio -/

theorem i80Mul_nonneg {x y : ℤ} (hx : 0 ≤ x) (hy : 0 ≤ y) : 0 ≤ i80Mul x y :=
  Int.tdiv_nonneg (mul_nonneg hx hy) (by norm_num [MULTIPLIER, FRACTIONS])

theorem weightedStep_liabs_nonneg (g : LyraeGroup) (c : LyraeCache)
    (spot perps : List ℤ) (ht : Option HealthType) (st : ℤ × ℤ) (i : ℕ)
    (hp : 0 ≤ (c.priceCache i).price)
    (hw1 : 0 ≤ (getWeights g i ht).spotLiabWeight)
    (hw2 : 0 ≤ (getWeights g i ht).perpLiabWeight)
    (hst : 0 ≤ st.2) :
    0 ≤ (weightedStep g c spot perps ht st i).2 := by
  unfold weightedStep
  dsimp only
  split_ifs <;> dsimp only <;>
  repeat
    first
      | exact hst
      | apply add_nonneg
      | exact i80Mul_nonneg (i80Mul_nonneg (by rw [i80Neg_eq]; omega) hp) hw1
      | exact i80Mul_nonneg (i80Mul_nonneg (by rw [i80Neg_eq]; omega) hp) hw2

theorem foldl_weightedStep_liabs_nonneg (g : LyraeGroup) (c : LyraeCache)
    (spot perps : List ℤ) (ht : Option HealthType) :
    ∀ (l : List ℕ) (st : ℤ × ℤ),
    (∀ i ∈ l, 0 ≤ (c.priceCache i).price ∧
      0 ≤ (getWeights g i ht).spotLiabWeight ∧
      0 ≤ (getWeights g i ht).perpLiabWeight) →
    0 ≤ st.2 → 0 ≤ (l.foldl (weightedStep g c spot perps ht) st).2
  | [], _, _, hst => hst
  | x :: xs, st, hl, hst => by
      rw [List.foldl_cons]
      exact foldl_weightedStep_liabs_nonneg g c spot perps ht xs _
        (fun i hi => hl i (List.mem_cons_of_mem x hi))
        (weightedStep_liabs_nonneg g c spot perps ht st x
          (hl x (List.mem_cons_self x xs)).1
          (hl x (List.mem_cons_self x xs)).2.1
          (hl x (List.mem_cons_self x xs)).2.2 hst)

theorem weighted_liabs_nonneg (g : LyraeGroup) (c : LyraeCache)
    (spot perps : List ℤ) (quote : ℤ) (ht : Option HealthType)
    (hp : ∀ i, i < g.numOracles → 0 ≤ (c.priceCache i).price)
    (hw : ∀ i, i < g.numOracles → 0 ≤ (getWeights g i ht).spotLiabWeight ∧
      0 ≤ (getWeights g i ht).perpLiabWeight) :
    0 ≤ (getWeightedAssetsLiabsVals g c spot perps quote ht).2 := by
  unfold getWeightedAssetsLiabsVals
  refine foldl_weightedStep_liabs_nonneg g c spot perps ht _ _ ?_ ?_
  · intro i hi
    have hi' := List.mem_range.mp hi
    exact ⟨hp i hi', (hw i hi').1, (hw i hi').2⟩
  · split_ifs with h <;> simp only [ZERO, i80Neg_eq] <;> omega

/-- C4: with a snapshot whose cached prices and liability weights are
nonnegative (so that the accumulated weighted liabilities are nonnegative),
the health ratio is 100 exactly when total weighted liabilities are zero and
otherwise equals `100 * (weighted assets / weighted liabilities - 1)` in
fixed point — a value that can be negative, as the witness shows. -/
theorem health_ratio_cases (g : LyraeGroup) (a : LyraeAccount)
    (c : LyraeCache) (ht : HealthType)
    (hp : ∀ i, i < g.numOracles → 0 ≤ (c.priceCache i).price)
    (hw : ∀ i, i < g.numOracles →
      0 ≤ (getWeights g i (some ht)).spotLiabWeight ∧
      0 ≤ (getWeights g i (some ht)).perpLiabWeight) :
    ((getWeightedAssetsLiabsVals g c (getHealthComponents g a c).spot
        (getHealthComponents g a c).perps (getHealthComponents g a c).quote
        (some ht)).2 = 0 → getHealthRatio g a c ht = HUNDRED) ∧
    ((getWeightedAssetsLiabsVals g c (getHealthComponents g a c).spot
        (getHealthComponents g a c).perps (getHealthComponents g a c).quote
        (some ht)).2 ≠ 0 →
      getHealthRatio g a c ht =
        i80Mul (i80Div
          (getWeightedAssetsLiabsVals g c (getHealthComponents g a c).spot
            (getHealthComponents g a c).perps (getHealthComponents g a c).quote
            (some ht)).1
          (getWeightedAssetsLiabsVals g c (getHealthComponents g a c).spot
            (getHealthComponents g a c).perps (getHealthComponents g a c).quote
            (some ht)).2 - ONE) HUNDRED) := by
  have hl := weighted_liabs_nonneg g c (getHealthComponents g a c).spot
    (getHealthComponents g a c).perps (getHealthComponents g a c).quote
    (some ht) hp hw
  constructor
  · intro h0
    unfold getHealthRatio
    dsimp only
    rw [if_neg (by omega)]
  · intro hne
    unfold getHealthRatio
    dsimp only
    rw [if_pos (by omega)]

/-- Witness for `health_ratio_cases`: an account borrowing one quote unit
has positive weighted liabilities and a negative health ratio of exactly
-100 (raw `-100 * 2^48`). -/
theorem health_ratio_cases_witness :
    (getWeightedAssetsLiabsVals emptyGroup unitCache
      (getHealthComponents emptyGroup borrowerAccount unitCache).spot
      (getHealthComponents emptyGroup borrowerAccount unitCache).perps
      (getHealthComponents emptyGroup borrowerAccount unitCache).quote
      (some .init)).2 ≠ 0 ∧
    getHealthRatio emptyGroup borrowerAccount unitCache .init =
      i80Mul (i80Div
        (getWeightedAssetsLiabsVals emptyGroup unitCache
          (getHealthComponents emptyGroup borrowerAccount unitCache).spot
          (getHealthComponents emptyGroup borrowerAccount unitCache).perps
          (getHealthComponents emptyGroup borrowerAccount unitCache).quote
          (some .init)).1
        (getWeightedAssetsLiabsVals emptyGroup unitCache
          (getHealthComponents emptyGroup borrowerAccount unitCache).spot
          (getHealthComponents emptyGroup borrowerAccount unitCache).perps
          (getHealthComponents emptyGroup borrowerAccount unitCache).quote
          (some .init)).2 - ONE) HUNDRED ∧
    getHealthRatio emptyGroup borrowerAccount unitCache .init < 0 :=
  ⟨by decide,
   (health_ratio_cases emptyGroup borrowerAccount unitCache .init
     (fun i hi => by simp [emptyGroup] at hi)
     (fun i hi => by simp [emptyGroup] at hi)).2 (by decide),
   by decide⟩

/-- A group with a single oracle and no perp market registered. -/
def oneOracleGroup : LyraeGroup :=
  ⟨1, fun _ => ⟨6⟩, fun _ => ⟨0, 0, 0, 0⟩, fun _ => ⟨0, 0, 0, 0, 0, 0, 0⟩, [1]⟩

/-- A cache whose prices and bank indices are all one. -/
def priceOneCache : LyraeCache :=
  ⟨fun _ => ⟨ONE⟩, fun _ => ⟨ONE, ONE⟩, fun _ => ⟨0, 0⟩⟩

/-- An open-orders account with some free and locked base and quote. -/
def exampleOO : OpenOrders := ⟨2, 3, 5, 11, 1⟩

/-- An account holding `exampleOO` in its margin basket at index 0. -/
def basketAccount : LyraeAccount :=
  ⟨fun _ => 0, fun _ => 0, fun i => i == 0,
   fun i => if i == 0 then some exampleOO else none,
   fun _ => zeroPerpAcct, false⟩

/-- Witness for `spot_hypothesis_selection` at a one-market group with a
resting open-orders account. -/
theorem spot_hypothesis_selection_witness :
    (getHealthComponents oneOracleGroup basketAccount priceOneCache).spot.getD 0 0 =
      (if i80Abs (asksExecuteSpot basketAccount priceOneCache 0 exampleOO) <
          i80Abs (bidsExecuteSpot basketAccount priceOneCache 0 exampleOO)
       then bidsExecuteSpot basketAccount priceOneCache 0 exampleOO
       else asksExecuteSpot basketAccount priceOneCache 0 exampleOO) :=
  (spot_hypothesis_selection oneOracleGroup basketAccount priceOneCache 0
    exampleOO (by decide) (by decide) rfl).1

/-! ### C5: the settlePnl matching loop (src/client.ts lines 2622-2657) -/

/-- One ranked settlement candidate (`AccountWithPnl`): account key and that
account's PnL for the market. -/
structure PnlCandidate where
  key : ℕ
  pnl : ℤ

/-- The observable state of the settlePnl matching loop: the subject's
remaining PnL, the instruction count of the transaction being built, the
matched counterparties in order, and whether the loop has broken out. -/
structure SettleState where
  pnl : ℤ
  instrs : ℕ
  matched : List PnlCandidate
  done : Bool

/-- One iteration of the settlePnl loop: skip the subject's own account;
require opposite-sign PnL and fewer than 10 instructions in the
transaction; on a match append the settle instruction, fold the
counterparty's PnL into the remaining PnL and break (`done`) when the
remaining sign (`pnl.gt(0) ? 1 : -1`, so zero counts as negative) differs
from the subject's original sign. -/
def settleStep (own : ℕ) (sign : ℤ) (st : SettleState) (acct : PnlCandidate) :
    SettleState :=
  if st.done then st
  else if acct.key = own then st
  else if ((0 < st.pnl ∧ acct.pnl < 0) ∨ (st.pnl < 0 ∧ 0 < acct.pnl)) ∧
      st.instrs < 10 then
    let pnl := st.pnl + acct.pnl
    let remSign : ℤ := if 0 < pnl then 1 else -1
    { pnl := pnl, instrs := st.instrs + 1, matched := st.matched ++ [acct],
      done := decide (remSign ≠ sign) }
  else st

/-- The settlePnl matching loop over the ranked candidate list; `sign` is
`1` when the subject's pre-settlement PnL is positive, `-1` otherwise, and
`instrs0` counts instructions already in the transaction (one settle-fees
instruction on the negative path, none otherwise). -/
def settlePnlLoop (own : ℕ) (pnl0 : ℤ) (instrs0 : ℕ)
    (cands : List PnlCandidate) : SettleState :=
  cands.foldl (settleStep own (if 0 < pnl0 then 1 else -1))
    ⟨pnl0, instrs0, [], false⟩

/-- The invariant maintained by the settlePnl loop. -/
def SettleInv (own : ℕ) (pnl0 : ℤ) (instrs0 : ℕ) (st : SettleState) : Prop :=
  st.instrs = instrs0 + st.matched.length ∧
  (instrs0 ≤ 10 → st.instrs ≤ 10) ∧
  (st.done = false →
    (0 < pnl0 → 0 < st.pnl ∧ st.pnl ≤ pnl0) ∧
    (pnl0 < 0 → pnl0 ≤ st.pnl ∧ st.pnl ≤ 0)) ∧
  (pnl0 - st.pnl).natAbs ≤
    pnl0.natAbs + (st.matched.map (fun x => x.pnl.natAbs)).foldr max 0 ∧
  (∀ x ∈ st.matched, x.key ≠ own ∧ (0 < pnl0 → x.pnl < 0) ∧
    (pnl0 < 0 → 0 < x.pnl)) ∧
  (st.done = true → (0 < pnl0 → st.pnl ≤ 0) ∧ (pnl0 < 0 → 0 < st.pnl))

theorem foldr_max_append (l : List ℕ) (v : ℕ) :
    (l ++ [v]).foldr max 0 = max (l.foldr max 0) v := by
  induction l with
  | nil => simp [Nat.max_comm]
  | cons x xs ih =>
      simp only [List.cons_append, List.foldr_cons, ih]
      omega

theorem settleStep_inv (own : ℕ) (pnl0 sign : ℤ) (h0 : pnl0 ≠ 0)
    (hs : sign = if 0 < pnl0 then 1 else -1) (instrs0 : ℕ) (a : PnlCandidate)
    (st : SettleState) (hInv : SettleInv own pnl0 instrs0 st) :
    SettleInv own pnl0 instrs0 (settleStep own sign st a) := by
  obtain ⟨hi1, hi2, hi3, hi4, hi5, hi6⟩ := hInv
  unfold settleStep
  split_ifs with h1 h2 h3
  · exact ⟨hi1, hi2, hi3, hi4, hi5, hi6⟩
  · exact ⟨hi1, hi2, hi3, hi4, hi5, hi6⟩
  · have hnd : st.done = false := by revert h1; cases st.done <;> simp
    obtain ⟨hopp, hcap⟩ := h3
    have hsign := hi3 hnd
    have hmax : ((st.matched ++ [a]).map (fun x => x.pnl.natAbs)).foldr max 0 =
        max ((st.matched.map (fun x => x.pnl.natAbs)).foldr max 0)
          a.pnl.natAbs := by
      rw [List.map_append, List.map_singleton, foldr_max_append]
    have hmax1 := Nat.le_max_left
      ((st.matched.map (fun x => x.pnl.natAbs)).foldr max 0) a.pnl.natAbs
    have hmax2 := Nat.le_max_right
      ((st.matched.map (fun x => x.pnl.natAbs)).foldr max 0) a.pnl.natAbs
    by_cases hpos : 0 < pnl0
    · have hseq : sign = 1 := by rw [hs, if_pos hpos]
      subst hseq
      have hb1 : 0 < st.pnl := (hsign.1 hpos).1
      have hb2 : st.pnl ≤ pnl0 := (hsign.1 hpos).2
      have hap : a.pnl < 0 := by
        rcases hopp with ⟨hsp, hap⟩ | ⟨hsp, hap⟩
        · exact hap
        · omega
      refine ⟨?_, ?_, ?_, ?_, ?_, ?_⟩ <;> dsimp only
      · simp only [List.length_append, List.length_singleton, hi1]; omega
      · intro h10; omega
      · intro hdf
        rw [decide_eq_false_iff_not] at hdf
        push_neg at hdf
        by_cases hq : 0 < st.pnl + a.pnl
        · exact ⟨fun _ => ⟨hq, by omega⟩, fun h => by omega⟩
        · rw [if_neg hq] at hdf; norm_num at hdf
      · rw [hmax]; omega
      · intro x hx
        rcases List.mem_append.mp hx with hx1 | hx1
        · exact hi5 x hx1
        · have hxa : x = a := by simpa using hx1
          subst hxa
          exact ⟨h2, fun _ => hap, fun h => by omega⟩
      · intro hdt
        rw [decide_eq_true_eq] at hdt
        by_cases hq : 0 < st.pnl + a.pnl
        · rw [if_pos hq] at hdt; norm_num at hdt
        · exact ⟨fun _ => by omega, fun h => by omega⟩
    · have hneg : pnl0 < 0 := by omega
      have hseq : sign = -1 := by rw [hs, if_neg hpos]
      subst hseq
      have hb1 : pnl0 ≤ st.pnl := (hsign.2 hneg).1
      have hb2 : st.pnl ≤ 0 := (hsign.2 hneg).2
      have hap : 0 < a.pnl := by
        rcases hopp with ⟨hsp, hap⟩ | ⟨hsp, hap⟩
        · omega
        · exact hap
      refine ⟨?_, ?_, ?_, ?_, ?_, ?_⟩ <;> dsimp only
      · simp only [List.length_append, List.length_singleton, hi1]; omega
      · intro h10; omega
      · intro hdf
        rw [decide_eq_false_iff_not] at hdf
        push_neg at hdf
        by_cases hq : 0 < st.pnl + a.pnl
        · rw [if_pos hq] at hdf; norm_num at hdf
        · exact ⟨fun h => by omega, fun _ => ⟨by omega, by omega⟩⟩
      · rw [hmax]; omega
      · intro x hx
        rcases List.mem_append.mp hx with hx1 | hx1
        · exact hi5 x hx1
        · have hxa : x = a := by simpa using hx1
          subst hxa
          exact ⟨h2, fun h => by omega, fun _ => hap⟩
      · intro hdt
        rw [decide_eq_true_eq] at hdt
        by_cases hq : 0 < st.pnl + a.pnl
        · exact ⟨fun h => by omega, fun _ => hq⟩
        · rw [if_neg hq] at hdt; norm_num at hdt
  · exact ⟨hi1, hi2, hi3, hi4, hi5, hi6⟩


theorem foldl_settleStep_inv (own : ℕ) (pnl0 : ℤ) (h0 : pnl0 ≠ 0)
    (instrs0 : ℕ) :
    ∀ (cands : List PnlCandidate) (st : SettleState),
    SettleInv own pnl0 instrs0 st →
    SettleInv own pnl0 instrs0
      (cands.foldl (settleStep own (if 0 < pnl0 then 1 else -1)) st)
  | [], _, hInv => hInv
  | x :: xs, st, hInv => by
      rw [List.foldl_cons]
      exact foldl_settleStep_inv own pnl0 h0 instrs0 xs _
        (settleStep_inv own pnl0 _ h0 rfl instrs0 x st hInv)

/-- C5 (counterexample): with pre-settlement PnL raw 1 and a single ranked
candidate holding PnL raw -3, the loop matches it and the settled PnL
magnitude `|pre - remaining| = 3` exceeds the pre-settlement magnitude 1 —
the final match may overshoot, so the settled magnitude is not bounded by
the pre-settlement magnitude. -/
theorem settle_magnitude_overshoot :
    (1 - (settlePnlLoop 0 1 0 [⟨1, -3⟩]).pnl).natAbs = 3 ∧
    ¬((1 - (settlePnlLoop 0 1 0 [⟨1, -3⟩]).pnl).natAbs ≤ (1 : ℤ).natAbs) := by
  decide

/-- C5 (amended): the loop skips the subject's own account and matches only
counterparties whose PnL opposes the subject's pre-settlement sign; each
match adds exactly one instruction and the count never exceeds the 10
instruction cap; while the loop is still scanning the settled magnitude
never exceeds the pre-settlement magnitude, and overall it exceeds it by at
most the largest matched counterparty's magnitude (the final match may
overshoot); the loop breaks out exactly when the remaining PnL's sign
(zero counting as negative) differs from the original sign — otherwise it
runs until the candidates are exhausted. -/
theorem settle_loop_invariants (own : ℕ) (pnl0 : ℤ) (instrs0 : ℕ)
    (cands : List PnlCandidate) (h0 : pnl0 ≠ 0) (h10 : instrs0 ≤ 10) :
    (∀ x ∈ (settlePnlLoop own pnl0 instrs0 cands).matched,
      x.key ≠ own ∧ (0 < pnl0 → x.pnl < 0) ∧ (pnl0 < 0 → 0 < x.pnl)) ∧
    ((settlePnlLoop own pnl0 instrs0 cands).instrs =
      instrs0 + (settlePnlLoop own pnl0 instrs0 cands).matched.length ∧
      (settlePnlLoop own pnl0 instrs0 cands).instrs ≤ 10) ∧
    ((pnl0 - (settlePnlLoop own pnl0 instrs0 cands).pnl).natAbs ≤
      pnl0.natAbs + ((settlePnlLoop own pnl0 instrs0 cands).matched.map
        (fun x => x.pnl.natAbs)).foldr max 0) ∧
    ((settlePnlLoop own pnl0 instrs0 cands).done = false →
      (pnl0 - (settlePnlLoop own pnl0 instrs0 cands).pnl).natAbs ≤
        pnl0.natAbs) ∧
    ((settlePnlLoop own pnl0 instrs0 cands).done = true →
      (0 < pnl0 → (settlePnlLoop own pnl0 instrs0 cands).pnl ≤ 0) ∧
      (pnl0 < 0 → 0 < (settlePnlLoop own pnl0 instrs0 cands).pnl)) := by
  unfold settlePnlLoop
  have hInit : SettleInv own pnl0 instrs0 ⟨pnl0, instrs0, [], false⟩ := by
    unfold SettleInv
    dsimp only
    exact ⟨by simp, fun h => h,
      fun _ => ⟨fun h => ⟨h, le_refl _⟩, fun h => ⟨le_refl _, le_of_lt h⟩⟩,
      by simp, by simp, by simp⟩
  have hRes := foldl_settleStep_inv own pnl0 h0 instrs0 cands _ hInit
  obtain ⟨hi1, hi2, hi3, hi4, hi5, hi6⟩ := hRes
  refine ⟨hi5, ⟨hi1, hi2 h10⟩, hi4, ?_, hi6⟩
  intro hdf
  have hb := hi3 hdf
  rcases lt_trichotomy pnl0 0 with h | h | h
  · have := hb.2 h; omega
  · omega
  · have := hb.1 h; omega

/-- Witness for `settle_loop_invariants`: in the overshoot run the loop has
broken out with the remaining PnL's sign flipped to nonpositive. -/
theorem settle_loop_invariants_witness :
    (settlePnlLoop 0 1 0 [⟨1, -3⟩]).done = true ∧
    (settlePnlLoop 0 1 0 [⟨1, -3⟩]).pnl ≤ 0 :=
  ⟨by decide,
   ((settle_loop_invariants 0 1 0 [⟨1, -3⟩] (by decide) (by decide)).2.2.2.2
     (by decide)).1 (by decide)⟩

end Lyrae
